import Mathlib

/-!
Shallow embedding of the `txn` ledger engine (`src/src/main.rs`).

Modelling conventions:
* `rust_decimal::Decimal` amounts are modelled as `ℚ`.  The engine only adds,
  subtracts and compares amounts, and `Decimal` addition/subtraction on
  4-decimal-digit inputs is exact, so `ℚ` is a faithful model (overflow of the
  96-bit mantissa is out of model).
* `HashMap<ClientId, Account>` is modelled as a total function
  `ClientId → Account`.  The Rust code reads through `get_account_mut`
  (`entry(..).or_insert(default)`), `get_balance` and `is_locked`, all of
  which treat a missing account exactly as the default account, so the
  total-function model is observationally equivalent for the engine.
* `HashSet<TxnId>` is a `Finset TxnId`; `HashMap<TxnId, Txn>` (the per-account
  transaction log) is a total function `TxnId → Option Txn`, with
  `HashMap::insert` as pointwise update.
* The `.unwrap()` calls in `resolve` and `chargeback` can panic; those two
  operations (and hence `execute`) return `Option Accounts`, where `none`
  models the panic.
-/

namespace Ledger

abbrev ClientId := ℕ

abbrev TxnId := ℕ

abbrev Amount := ℚ

/-- `CURRENCY_PRECISION` from the source. -/
def CURRENCY_PRECISION : ℕ := 4

/-- Round a rational to the nearest integer, halves to even
(`rust_decimal`'s default `round_dp` strategy, banker's rounding). -/
def roundHalfEven (q : ℚ) : ℤ :=
  let f := ⌊q⌋
  let r := q - (f : ℚ)
  if r < 1/2 then f
  else if 1/2 < r then f + 1
  else if f % 2 = 0 then f else f + 1

/-- `Decimal::round_dp(dp)`: round to `dp` fractional digits, half to even. -/
def round_dp (q : ℚ) (dp : ℕ) : ℚ :=
  (roundHalfEven (q * 10 ^ dp) : ℚ) / 10 ^ dp

/-- `enum TxnType`. -/
inductive TxnType where
  | Deposit
  | Withdrawal
  | Dispute
  | Resolve
  | Chargeback
deriving DecidableEq, Repr

/-- `struct Txn`. -/
structure Txn where
  txntype : TxnType
  client : ClientId
  tx : TxnId
  amount : Option Amount
deriving DecidableEq, Repr

/-- `Txn::new`: rounds the amount to `CURRENCY_PRECISION` digits on
construction (`amount.map_or(None, |a| Some(a.round_dp(CURRENCY_PRECISION)))`). -/
def Txn.new (txntype : TxnType) (client : ClientId) (tx : TxnId)
    (amount : Option Amount) : Txn :=
  ⟨txntype, client, tx, amount.map (fun a => round_dp a CURRENCY_PRECISION)⟩

/-- `Txn::deposit`. -/
def Txn.deposit (client : ClientId) (tx : TxnId) (amount : Amount) : Txn :=
  Txn.new TxnType.Deposit client tx (some amount)

/-- `Txn::withdrawal`. -/
def Txn.withdrawal (client : ClientId) (tx : TxnId) (amount : Amount) : Txn :=
  Txn.new TxnType.Withdrawal client tx (some amount)

/-- `Txn::dispute`. -/
def Txn.dispute (client : ClientId) (tx : TxnId) : Txn :=
  Txn.new TxnType.Dispute client tx none

/-- `Txn::resolve`. -/
def Txn.resolve (client : ClientId) (tx : TxnId) : Txn :=
  Txn.new TxnType.Resolve client tx none

/-- `Txn::chargeback`. -/
def Txn.chargeback (client : ClientId) (tx : TxnId) : Txn :=
  Txn.new TxnType.Chargeback client tx none

/-- `Txn::amount(&self)`: `self.amount.unwrap_or(dec!(0.0))`.  Named
`amountD` because the field is already called `amount`. -/
def Txn.amountD (t : Txn) : Amount :=
  t.amount.getD 0

/-- `struct Balance`. -/
structure Balance where
  available : Amount := 0
  held : Amount := 0
  total : Amount := 0
deriving DecidableEq, Repr

/-- `struct Account` (`Default` gives zero balance, empty disputes and log,
unlocked). -/
structure Account where
  balance : Balance := {}
  disputes : Finset TxnId := ∅
  txnlog : TxnId → Option Txn := fun _ => none
  locked : Bool := false

/-- `type Accounts = HashMap<ClientId, Account>`, as a total function (see
the module comment). -/
abbrev Accounts := ClientId → Account

/-- The empty account table (`Accounts::new()`). -/
def initAccounts : Accounts := fun _ => {}

/-- Writing one client's account back into the table (the effect of mutating
through `get_account_mut`). -/
def setAccount (accounts : Accounts) (client : ClientId) (a : Account) :
    Accounts :=
  Function.update accounts client a

/-- `get_balance`. -/
def get_balance (accounts : Accounts) (client : ClientId) : Balance :=
  (accounts client).balance

/-- `fn deposit`. -/
def deposit (accounts : Accounts) (client : ClientId) (amount : Amount) :
    Accounts :=
  let account := accounts client
  setAccount accounts client
    { account with
      balance :=
        { account.balance with
          available := account.balance.available + amount,
          total := account.balance.total + amount } }

/-- `fn withdraw`: insufficient available funds is a silent no-op. -/
def withdraw (accounts : Accounts) (client : ClientId) (amount : Amount) :
    Accounts :=
  let account := accounts client
  if account.balance.available < amount then
    accounts
  else
    setAccount accounts client
      { account with
        balance :=
          { account.balance with
            available := account.balance.available - amount,
            total := account.balance.total - amount } }

/-- `fn dispute`: unknown transaction id or already-disputed id is a no-op;
otherwise moves the logged amount from available to held. -/
def dispute (accounts : Accounts) (client : ClientId) (tx : TxnId) :
    Accounts :=
  let account := accounts client
  match account.txnlog tx with
  | none => accounts
  | some txn =>
    if tx ∈ account.disputes then
      accounts
    else
      setAccount accounts client
        { account with
          disputes := insert tx account.disputes,
          balance :=
            { account.balance with
              available := account.balance.available - txn.amountD,
              held := account.balance.held + txn.amountD } }

/-- `fn lock`. -/
def lock (accounts : Accounts) (client : ClientId) : Accounts :=
  let account := accounts client
  setAccount accounts client { account with locked := true }

/-- `fn is_locked`: an unknown client is not locked. -/
def is_locked (accounts : Accounts) (client : ClientId) : Bool :=
  (accounts client).locked

/-- `fn resolve`: not-under-dispute is a no-op; otherwise removes the id from
the dispute set and reverses the hold.  The `txnlog.get(&tx).unwrap()` panic
is modelled as `none`. -/
def resolve (accounts : Accounts) (client : ClientId) (tx : TxnId) :
    Option Accounts :=
  let account := accounts client
  if tx ∈ account.disputes then
    match account.txnlog tx with
    | none => none
    | some txn =>
      some (setAccount accounts client
        { account with
          disputes := account.disputes.erase tx,
          balance :=
            { account.balance with
              available := account.balance.available + txn.amountD,
              held := account.balance.held - txn.amountD } })
  else
    some accounts

/-- `fn chargeback`: undisputed id is a no-op; otherwise removes the hold
from held and total and locks the account.  The `unwrap` panic is `none`. -/
def chargeback (accounts : Accounts) (client : ClientId) (tx : TxnId) :
    Option Accounts :=
  let account := accounts client
  if tx ∈ account.disputes then
    match account.txnlog tx with
    | none => none
    | some txn =>
      some (lock
        (setAccount accounts client
          { account with
            disputes := account.disputes.erase tx,
            balance :=
              { account.balance with
                held := account.balance.held - txn.amountD,
                total := account.balance.total - txn.amountD } })
        client)
  else
    some accounts

/-- `fn log_transaction`: `txnlog.insert(transaction.tx, transaction)` —
note that `HashMap::insert` overwrites an existing entry. -/
def log_transaction (accounts : Accounts) (transaction : Txn) : Accounts :=
  let account := accounts transaction.client
  setAccount accounts transaction.client
    { account with
      txnlog := Function.update account.txnlog transaction.tx (some transaction) }

/-- `fn execute`: skip if locked, then dispatch on the transaction type.
Deposits and withdrawals are logged unconditionally after the balance
operation. -/
def execute (accounts : Accounts) (txn : Txn) : Option Accounts :=
  if is_locked accounts txn.client then
    some accounts
  else
    match txn.txntype with
    | TxnType.Deposit =>
      some (log_transaction (deposit accounts txn.client txn.amountD) txn)
    | TxnType.Withdrawal =>
      some (log_transaction (withdraw accounts txn.client txn.amountD) txn)
    | TxnType.Dispute => some (dispute accounts txn.client txn.tx)
    | TxnType.Resolve => resolve accounts txn.client txn.tx
    | TxnType.Chargeback => chargeback accounts txn.client txn.tx

/-- The main loop of `fn main`: execute the transactions in input order,
stopping (with `none`) if the engine panics. -/
def run (accounts : Accounts) : List Txn → Option Accounts
  | [] => some accounts
  | t :: ts =>
    match execute accounts t with
    | none => none
    | some s => run s ts

/-- Account tables reachable by the engine from the empty table. -/
inductive Reachable : Accounts → Prop where
  | init : Reachable initAccounts
  | step {s s' : Accounts} {t : Txn} :
      Reachable s → execute s t = some s' → Reachable s'

/-! ### Rounding helpers -/

lemma roundHalfEven_intCast (n : ℤ) : roundHalfEven (n : ℚ) = n := by
  unfold roundHalfEven
  norm_num

lemma round_dp_eq_self (q : ℚ) (dp : ℕ) (h : ∃ n : ℤ, q * 10 ^ dp = (n : ℚ)) :
    round_dp q dp = q := by
  obtain ⟨n, hn⟩ := h
  unfold round_dp
  rw [hn, roundHalfEven_intCast, ← hn]
  exact mul_div_cancel_right₀ q (by positivity)

/-! ### Pointwise characterization of the operations -/

lemma setAccount_apply (s : Accounts) (c : ClientId) (a : Account)
    (x : ClientId) : setAccount s c a x = if x = c then a else s x := by
  simp [setAccount, Function.update_apply]

lemma deposit_apply_ne {s : Accounts} {cl : ClientId} {am : Amount}
    {x : ClientId} (hx : x ≠ cl) : deposit s cl am x = s x := by
  simp [deposit, setAccount_apply, hx]

/-! ### Branch characterization of each operation -/

lemma withdraw_of_lt {s : Accounts} {cl : ClientId} {am : Amount}
    (h : (s cl).balance.available < am) : withdraw s cl am = s := by
  simp [withdraw, h]

lemma withdraw_of_ge {s : Accounts} {cl : ClientId} {am : Amount}
    (h : ¬(s cl).balance.available < am) :
    withdraw s cl am =
      setAccount s cl
        { s cl with
          balance :=
            { (s cl).balance with
              available := (s cl).balance.available - am,
              total := (s cl).balance.total - am } } := by
  simp [withdraw, h]

lemma dispute_of_log_none {s : Accounts} {cl : ClientId} {tx : TxnId}
    (h : (s cl).txnlog tx = none) : dispute s cl tx = s := by
  simp [dispute, h]

lemma dispute_of_mem {s : Accounts} {cl : ClientId} {tx : TxnId}
    (h : tx ∈ (s cl).disputes) : dispute s cl tx = s := by
  cases hlog : (s cl).txnlog tx <;> simp [dispute, hlog, h]

lemma dispute_of_new {s : Accounts} {cl : ClientId} {tx : TxnId} {txn : Txn}
    (hlog : (s cl).txnlog tx = some txn) (hd : tx ∉ (s cl).disputes) :
    dispute s cl tx =
      setAccount s cl
        { s cl with
          disputes := insert tx (s cl).disputes,
          balance :=
            { (s cl).balance with
              available := (s cl).balance.available - txn.amountD,
              held := (s cl).balance.held + txn.amountD } } := by
  simp [dispute, hlog, hd]

lemma resolve_of_not_mem {s : Accounts} {cl : ClientId} {tx : TxnId}
    (hd : tx ∉ (s cl).disputes) : resolve s cl tx = some s := by
  simp [resolve, hd]

lemma resolve_of_mem_none {s : Accounts} {cl : ClientId} {tx : TxnId}
    (hd : tx ∈ (s cl).disputes) (hlog : (s cl).txnlog tx = none) :
    resolve s cl tx = none := by
  simp [resolve, hd, hlog]

lemma resolve_of_mem_some {s : Accounts} {cl : ClientId} {tx : TxnId}
    {txn : Txn} (hd : tx ∈ (s cl).disputes)
    (hlog : (s cl).txnlog tx = some txn) :
    resolve s cl tx =
      some (setAccount s cl
        { s cl with
          disputes := (s cl).disputes.erase tx,
          balance :=
            { (s cl).balance with
              available := (s cl).balance.available + txn.amountD,
              held := (s cl).balance.held - txn.amountD } }) := by
  simp [resolve, hd, hlog]

lemma chargeback_of_not_mem {s : Accounts} {cl : ClientId} {tx : TxnId}
    (hd : tx ∉ (s cl).disputes) : chargeback s cl tx = some s := by
  simp [chargeback, hd]

lemma chargeback_of_mem_none {s : Accounts} {cl : ClientId} {tx : TxnId}
    (hd : tx ∈ (s cl).disputes) (hlog : (s cl).txnlog tx = none) :
    chargeback s cl tx = none := by
  simp [chargeback, hd, hlog]

lemma chargeback_of_mem_some {s : Accounts} {cl : ClientId} {tx : TxnId}
    {txn : Txn} (hd : tx ∈ (s cl).disputes)
    (hlog : (s cl).txnlog tx = some txn) :
    chargeback s cl tx =
      some (lock
        (setAccount s cl
          { s cl with
            disputes := (s cl).disputes.erase tx,
            balance :=
              { (s cl).balance with
                held := (s cl).balance.held - txn.amountD,
                total := (s cl).balance.total - txn.amountD } })
        cl) := by
  simp [chargeback, hd, hlog]

/-! ### Branch characterization of `execute` -/

/-- A transaction for a locked client is skipped entirely. -/
lemma execute_of_locked {s : Accounts} {t : Txn}
    (hl : (s t.client).locked = true) : execute s t = some s := by
  simp [execute, is_locked, hl]

lemma execute_unlocked_deposit {s : Accounts} {t : Txn}
    (hl : (s t.client).locked = false) (ht : t.txntype = TxnType.Deposit) :
    execute s t = some (log_transaction (deposit s t.client t.amountD) t) := by
  simp [execute, is_locked, hl, ht]

lemma execute_unlocked_withdrawal {s : Accounts} {t : Txn}
    (hl : (s t.client).locked = false)
    (ht : t.txntype = TxnType.Withdrawal) :
    execute s t = some (log_transaction (withdraw s t.client t.amountD) t) := by
  simp [execute, is_locked, hl, ht]

lemma execute_unlocked_dispute {s : Accounts} {t : Txn}
    (hl : (s t.client).locked = false) (ht : t.txntype = TxnType.Dispute) :
    execute s t = some (dispute s t.client t.tx) := by
  simp [execute, is_locked, hl, ht]

lemma execute_unlocked_resolve {s : Accounts} {t : Txn}
    (hl : (s t.client).locked = false) (ht : t.txntype = TxnType.Resolve) :
    execute s t = resolve s t.client t.tx := by
  simp [execute, is_locked, hl, ht]

lemma execute_unlocked_chargeback {s : Accounts} {t : Txn}
    (hl : (s t.client).locked = false)
    (ht : t.txntype = TxnType.Chargeback) :
    execute s t = chargeback s t.client t.tx := by
  simp [execute, is_locked, hl, ht]

/-! ### Only the transaction's own client is touched -/

lemma lock_apply_ne {s : Accounts} {cl : ClientId} {x : ClientId}
    (hx : x ≠ cl) : lock s cl x = s x := by
  simp [lock, setAccount_apply, hx]

lemma log_transaction_apply_ne {s : Accounts} {t : Txn} {x : ClientId}
    (hx : x ≠ t.client) : log_transaction s t x = s x := by
  simp [log_transaction, setAccount_apply, hx]

lemma withdraw_apply_ne {s : Accounts} {cl : ClientId} {am : Amount}
    {x : ClientId} (hx : x ≠ cl) : withdraw s cl am x = s x := by
  by_cases h : (s cl).balance.available < am
  · rw [withdraw_of_lt h]
  · rw [withdraw_of_ge h]
    simp [setAccount_apply, hx]

lemma dispute_apply_ne {s : Accounts} {cl : ClientId} {tx : TxnId}
    {x : ClientId} (hx : x ≠ cl) : dispute s cl tx x = s x := by
  by_cases hd : tx ∈ (s cl).disputes
  · rw [dispute_of_mem hd]
  · cases hlog : (s cl).txnlog tx with
    | none => rw [dispute_of_log_none hlog]
    | some txn =>
      rw [dispute_of_new hlog hd]
      simp [setAccount_apply, hx]

lemma resolve_apply_ne {s s' : Accounts} {cl : ClientId} {tx : TxnId}
    (h : resolve s cl tx = some s') {x : ClientId} (hx : x ≠ cl) :
    s' x = s x := by
  by_cases hd : tx ∈ (s cl).disputes
  · cases hlog : (s cl).txnlog tx with
    | none => rw [resolve_of_mem_none hd hlog] at h; exact absurd h (by simp)
    | some txn =>
      rw [resolve_of_mem_some hd hlog] at h
      cases h
      simp [setAccount_apply, hx]
  · rw [resolve_of_not_mem hd] at h
    cases h
    rfl

lemma chargeback_apply_ne {s s' : Accounts} {cl : ClientId} {tx : TxnId}
    (h : chargeback s cl tx = some s') {x : ClientId} (hx : x ≠ cl) :
    s' x = s x := by
  by_cases hd : tx ∈ (s cl).disputes
  · cases hlog : (s cl).txnlog tx with
    | none => rw [chargeback_of_mem_none hd hlog] at h; exact absurd h (by simp)
    | some txn =>
      rw [chargeback_of_mem_some hd hlog] at h
      cases h
      rw [lock_apply_ne hx]
      simp [setAccount_apply, hx]
  · rw [chargeback_of_not_mem hd] at h
    cases h
    rfl

/-- A transaction only ever touches the account of its own client. -/
lemma execute_apply_ne {s s' : Accounts} {t : Txn}
    (h : execute s t = some s') {x : ClientId} (hx : x ≠ t.client) :
    s' x = s x := by
  by_cases hl : (s t.client).locked
  · rw [execute_of_locked hl] at h
    cases h
    rfl
  · rw [Bool.not_eq_true] at hl
    cases ht : t.txntype with
    | Deposit =>
      rw [execute_unlocked_deposit hl ht] at h
      cases h
      rw [log_transaction_apply_ne hx, deposit_apply_ne hx]
    | Withdrawal =>
      rw [execute_unlocked_withdrawal hl ht] at h
      cases h
      rw [log_transaction_apply_ne hx, withdraw_apply_ne hx]
    | Dispute =>
      rw [execute_unlocked_dispute hl ht] at h
      cases h
      exact dispute_apply_ne hx
    | Resolve => exact resolve_apply_ne (execute_unlocked_resolve hl ht ▸ h) hx
    | Chargeback =>
      exact chargeback_apply_ne (execute_unlocked_chargeback hl ht ▸ h) hx

/-! ### Lock permanence -/

/-- One step never changes a locked account (any transaction, any client). -/
lemma locked_execute {s s' : Accounts} {t : Txn}
    (h : execute s t = some s') {c : ClientId}
    (hl : (s c).locked = true) : s' c = s c := by
  by_cases hc : c = t.client
  · subst hc
    rw [execute_of_locked hl] at h
    cases h
    rfl
  · exact execute_apply_ne h hc

/-- A whole run never changes a locked account. -/
lemma locked_run {l : List Txn} :
    ∀ {s s' : Accounts} {c : ClientId}, (s c).locked = true →
      run s l = some s' → s' c = s c := by
  induction l with
  | nil =>
    intro s s' c _ h
    cases h
    rfl
  | cons t ts ih =>
    intro s s' c hl h
    unfold run at h
    cases he : execute s t with
    | none => rw [he] at h; exact absurd h (by simp)
    | some s1 =>
      rw [he] at h
      have h1 : s1 c = s c := locked_execute he hl
      rw [ih (by rw [h1]; exact hl) h, h1]

/-! ### The balance invariant `total = available + held` -/

/-- The per-account balance invariant. -/
def BalOk (a : Account) : Prop :=
  a.balance.total = a.balance.available + a.balance.held

lemma balOk_execute {s s' : Accounts} {t : Txn} (h : execute s t = some s')
    (hs : ∀ c, BalOk (s c)) : ∀ c, BalOk (s' c) := by
  intro c
  by_cases hc : c = t.client
  case neg => rw [execute_apply_ne h hc]; exact hs c
  subst hc
  have hb := hs t.client
  unfold BalOk at hb ⊢
  by_cases hl : (s t.client).locked = true
  case pos =>
    rw [execute_of_locked hl] at h
    cases h
    exact hb
  case neg =>
    rw [Bool.not_eq_true] at hl
    cases ht : t.txntype with
    | Deposit =>
      rw [execute_unlocked_deposit hl ht] at h
      cases h
      simp [log_transaction, deposit, setAccount_apply]
      linarith
    | Withdrawal =>
      rw [execute_unlocked_withdrawal hl ht] at h
      cases h
      by_cases hw : (s t.client).balance.available < t.amountD
      · rw [withdraw_of_lt hw]
        simp [log_transaction, setAccount_apply]
        exact hb
      · rw [withdraw_of_ge hw]
        simp [log_transaction, setAccount_apply]
        linarith
    | Dispute =>
      rw [execute_unlocked_dispute hl ht] at h
      cases h
      by_cases hd : t.tx ∈ (s t.client).disputes
      · rw [dispute_of_mem hd]
        exact hb
      · cases hlog : (s t.client).txnlog t.tx with
        | none =>
          rw [dispute_of_log_none hlog]
          exact hb
        | some txn =>
          rw [dispute_of_new hlog hd]
          simp [setAccount_apply]
          linarith
    | Resolve =>
      rw [execute_unlocked_resolve hl ht] at h
      by_cases hd : t.tx ∈ (s t.client).disputes
      · cases hlog : (s t.client).txnlog t.tx with
        | none =>
          rw [resolve_of_mem_none hd hlog] at h
          exact absurd h (by simp)
        | some txn =>
          rw [resolve_of_mem_some hd hlog] at h
          cases h
          simp [setAccount_apply]
          linarith
      · rw [resolve_of_not_mem hd] at h
        cases h
        exact hb
    | Chargeback =>
      rw [execute_unlocked_chargeback hl ht] at h
      by_cases hd : t.tx ∈ (s t.client).disputes
      · cases hlog : (s t.client).txnlog t.tx with
        | none =>
          rw [chargeback_of_mem_none hd hlog] at h
          exact absurd h (by simp)
        | some txn =>
          rw [chargeback_of_mem_some hd hlog] at h
          cases h
          simp [lock, setAccount_apply]
          linarith
      · rw [chargeback_of_not_mem hd] at h
        cases h
        exact hb

/-! ### The disputes-are-logged invariant -/

/-- Every disputed transaction id has an entry in the account's log. -/
def DisputesLogged (s : Accounts) : Prop :=
  ∀ (c : ClientId) (tx : TxnId),
    tx ∈ (s c).disputes → ((s c).txnlog tx).isSome

lemma disputesLogged_execute {s s' : Accounts} {t : Txn}
    (h : execute s t = some s') (hs : DisputesLogged s) :
    DisputesLogged s' := by
  intro c tx htx
  by_cases hc : c = t.client
  case neg => rw [execute_apply_ne h hc] at htx ⊢; exact hs c tx htx
  subst hc
  by_cases hl : (s t.client).locked = true
  case pos =>
    rw [execute_of_locked hl] at h
    cases h
    exact hs t.client tx htx
  case neg =>
    rw [Bool.not_eq_true] at hl
    cases ht : t.txntype with
    | Deposit =>
      rw [execute_unlocked_deposit hl ht] at h
      cases h
      simp [log_transaction, deposit, setAccount_apply] at htx ⊢
      rw [Function.update_apply]
      split
      · simp
      · exact hs t.client tx htx
    | Withdrawal =>
      rw [execute_unlocked_withdrawal hl ht] at h
      cases h
      by_cases hw : (s t.client).balance.available < t.amountD
      · rw [withdraw_of_lt hw] at htx ⊢
        simp [log_transaction, setAccount_apply] at htx ⊢
        rw [Function.update_apply]
        split
        · simp
        · exact hs t.client tx htx
      · rw [withdraw_of_ge hw] at htx ⊢
        simp [log_transaction, setAccount_apply] at htx ⊢
        rw [Function.update_apply]
        split
        · simp
        · exact hs t.client tx htx
    | Dispute =>
      rw [execute_unlocked_dispute hl ht] at h
      cases h
      by_cases hd : t.tx ∈ (s t.client).disputes
      · rw [dispute_of_mem hd] at htx ⊢
        exact hs t.client tx htx
      · cases hlog : (s t.client).txnlog t.tx with
        | none =>
          rw [dispute_of_log_none hlog] at htx ⊢
          exact hs t.client tx htx
        | some txn =>
          rw [dispute_of_new hlog hd] at htx ⊢
          simp [setAccount_apply] at htx ⊢
          rcases htx with htx | htx
          · subst htx
            simp [hlog]
          · exact hs t.client tx htx
    | Resolve =>
      rw [execute_unlocked_resolve hl ht] at h
      by_cases hd : t.tx ∈ (s t.client).disputes
      · cases hlog : (s t.client).txnlog t.tx with
        | none =>
          rw [resolve_of_mem_none hd hlog] at h
          exact absurd h (by simp)
        | some txn =>
          rw [resolve_of_mem_some hd hlog] at h
          cases h
          simp [setAccount_apply] at htx ⊢
          exact hs t.client tx htx.2
      · rw [resolve_of_not_mem hd] at h
        cases h
        exact hs t.client tx htx
    | Chargeback =>
      rw [execute_unlocked_chargeback hl ht] at h
      by_cases hd : t.tx ∈ (s t.client).disputes
      · cases hlog : (s t.client).txnlog t.tx with
        | none =>
          rw [chargeback_of_mem_none hd hlog] at h
          exact absurd h (by simp)
        | some txn =>
          rw [chargeback_of_mem_some hd hlog] at h
          cases h
          simp [lock, setAccount_apply] at htx ⊢
          exact hs t.client tx htx.2
      · rw [chargeback_of_not_mem hd] at h
        cases h
        exact hs t.client tx htx

lemma disputesLogged_reachable {s : Accounts} (h : Reachable s) :
    DisputesLogged s := by
  induction h with
  | init => intro c tx htx; exact absurd htx (by simp [initAccounts])
  | step hr he ih => exact disputesLogged_execute he ih

/-- If every disputed id is logged, no transaction can make the engine
panic: `execute` always returns a result. -/
lemma execute_isSome_of_disputesLogged {s : Accounts}
    (hs : DisputesLogged s) (t : Txn) : (execute s t).isSome := by
  by_cases hl : (s t.client).locked = true
  case pos => rw [execute_of_locked hl]; rfl
  case neg =>
    rw [Bool.not_eq_true] at hl
    cases ht : t.txntype with
    | Deposit => rw [execute_unlocked_deposit hl ht]; rfl
    | Withdrawal => rw [execute_unlocked_withdrawal hl ht]; rfl
    | Dispute => rw [execute_unlocked_dispute hl ht]; rfl
    | Resolve =>
      rw [execute_unlocked_resolve hl ht]
      by_cases hd : t.tx ∈ (s t.client).disputes
      · have := hs t.client t.tx hd
        cases hlog : (s t.client).txnlog t.tx with
        | none => rw [hlog] at this; exact absurd this (by simp)
        | some txn => rw [resolve_of_mem_some hd hlog]; rfl
      · rw [resolve_of_not_mem hd]; rfl
    | Chargeback =>
      rw [execute_unlocked_chargeback hl ht]
      by_cases hd : t.tx ∈ (s t.client).disputes
      · have := hs t.client t.tx hd
        cases hlog : (s t.client).txnlog t.tx with
        | none => rw [hlog] at this; exact absurd this (by simp)
        | some txn => rw [chargeback_of_mem_some hd hlog]; rfl
      · rw [chargeback_of_not_mem hd]; rfl

/-! ### Concrete states used by the witnesses -/

/-- An account table whose client-1 account is locked. -/
def lockedOneAccounts : Accounts :=
  setAccount initAccounts 1 { locked := true }

/-! ### Claim theorems -/

/-- C1: for every account and every sequence of transactions processed by the
engine, after each transaction is applied the account's balance satisfies
`total = available + held` exactly. -/
theorem c1_total_eq_available_add_held {s : Accounts} (h : Reachable s) :
    ∀ c : ClientId,
      (s c).balance.total = (s c).balance.available + (s c).balance.held := by
  have : ∀ c, BalOk (s c) := by
    induction h with
    | init =>
      intro c
      show (0 : ℚ) = 0 + 0
      rw [zero_add]
    | step hr he ih => exact balOk_execute he ih
  exact this

/-- Witness for C1 at the initial table. -/
theorem c1_total_eq_available_add_held_witness :
    (initAccounts 0).balance.total =
      (initAccounts 0).balance.available + (initAccounts 0).balance.held :=
  c1_total_eq_available_add_held Reachable.init 0

/-- C2: once an account's locked flag is true, no subsequent transaction of
any kind changes that account at all (balance, disputes set, log and locked
flag included), for every transaction applied after the lock. -/
theorem c2_lock_finality (s : Accounts) (c : ClientId) (l : List Txn)
    (s' : Accounts) (hl : (s c).locked = true) (hrun : run s l = some s') :
    s' c = s c :=
  locked_run hl hrun

/-- Witness for C2: a deposit executed against a locked account leaves the
account exactly as it was. -/
theorem c2_lock_finality_witness :
    (lockedOneAccounts 1).locked = true ∧
      run lockedOneAccounts [Txn.deposit 1 5 3] = some lockedOneAccounts ∧
      lockedOneAccounts 1 = lockedOneAccounts 1 := by
  refine ⟨by simp [lockedOneAccounts, setAccount_apply], ?_, ?_⟩
  · simp [run, execute, is_locked, lockedOneAccounts, setAccount_apply,
      Txn.deposit, Txn.new]
  · exact c2_lock_finality lockedOneAccounts 1 [Txn.deposit 1 5 3]
      lockedOneAccounts (by simp [lockedOneAccounts, setAccount_apply])
      (by simp [run, execute, is_locked, lockedOneAccounts, setAccount_apply,
        Txn.deposit, Txn.new])

/-- C6: applying `Dispute(tx)` twice in a row yields the same account table
as applying it once, for every account table, client and transaction id. -/
theorem c6_dispute_idempotent (accounts : Accounts) (client : ClientId)
    (tx : TxnId) :
    dispute (dispute accounts client tx) client tx =
      dispute accounts client tx := by
  cases hlog : (accounts client).txnlog tx with
  | none => rw [dispute_of_log_none hlog, dispute_of_log_none hlog]
  | some txn =>
    by_cases hd : tx ∈ (accounts client).disputes
    · rw [dispute_of_mem hd, dispute_of_mem hd]
    · rw [dispute_of_new hlog hd]
      apply dispute_of_mem
      simp [setAccount_apply]

/-- C9: in every reachable account table, every disputed transaction id has
an entry in that account's log, and consequently no transaction can make
`execute` fail (the `unwrap` in resolve/chargeback cannot panic). -/
theorem c9_disputes_subset_log {s : Accounts} (h : Reachable s) :
    (∀ (c : ClientId) (tx : TxnId),
        tx ∈ (s c).disputes → ((s c).txnlog tx).isSome) ∧
      ∀ t : Txn, (execute s t).isSome :=
  ⟨disputesLogged_reachable h,
    fun t => execute_isSome_of_disputesLogged (disputesLogged_reachable h) t⟩

/-- Witness for C9 at the initial table. -/
theorem c9_disputes_subset_log_witness :
    (∀ (c : ClientId) (tx : TxnId),
        tx ∈ (initAccounts c).disputes →
          ((initAccounts c).txnlog tx).isSome) ∧
      ∀ t : Txn, (execute initAccounts t).isSome :=
  c9_disputes_subset_log Reachable.init

/-- The C10 scenario: a deposit that is fully withdrawn and then disputed. -/
def c10seq : List Txn :=
  [Txn.deposit 1 1 10, Txn.withdrawal 1 2 10, Txn.dispute 1 1]

/-- C10: a well-formed sequence — deposit 10, withdraw 10, dispute the
deposit — drives the available balance to -10, which is negative. -/
theorem c10_available_can_go_negative :
    (run initAccounts c10seq).map (fun s => (s 1).balance.available) =
      some (-10) ∧ (-10 : ℚ) < 0 := by
  constructor
  · simp [c10seq, run, execute, is_locked, initAccounts, Txn.deposit,
      Txn.withdrawal, Txn.dispute, Txn.new, Txn.amountD, round_dp,
      roundHalfEven, CURRENCY_PRECISION, deposit, withdraw, dispute,
      log_transaction, setAccount, Function.update_apply]
    norm_num
  · norm_num

/-- The C3 counterexample run: a negative deposit that is then disputed. -/
def c3seq : List Txn := [Txn.deposit 1 1 (-5), Txn.dispute 1 1]

/-- C3 counterexample: the engine accepts a deposit of -5 and a dispute of it
then drives `held` to -5, which violates `held ≥ 0`. -/
theorem c3_counterexample :
    (run initAccounts c3seq).map (fun s => (s 1).balance.held) =
      some (-5) ∧ ¬(0 : ℚ) ≤ -5 := by
  have hm5 : round_dp (-5 : ℚ) 4 = -5 :=
    round_dp_eq_self (-5 : ℚ) 4 ⟨-50000, by norm_num⟩
  constructor
  · simp [c3seq, run, execute, is_locked, initAccounts, Txn.deposit,
      Txn.dispute, Txn.new, Txn.amountD, CURRENCY_PRECISION, hm5, deposit,
      dispute, log_transaction, setAccount, Function.update_apply]
  · norm_num

/-- C4 counterexample: a withdrawal of 5 against an empty (zero-balance)
account leaves the balances unchanged but IS logged under its id, contrary
to the claim that only a successful withdrawal is logged. -/
theorem c4_counterexample :
    (execute initAccounts (Txn.withdrawal 1 1 5)).map
      (fun s => ((s 1).balance, (s 1).txnlog 1)) =
      some ({ available := 0, held := 0, total := 0 },
        some (Txn.withdrawal 1 1 5)) := by
  have h5 : round_dp (5 : ℚ) 4 = 5 :=
    round_dp_eq_self (5 : ℚ) 4 ⟨50000, by norm_num⟩
  simp [execute, is_locked, initAccounts, Txn.withdrawal, Txn.new,
    Txn.amountD, CURRENCY_PRECISION, h5, withdraw, log_transaction,
    setAccount, Function.update_apply]

/-- The C8 counterexample run: two deposits that reuse transaction id 1. -/
def c8seq : List Txn := [Txn.deposit 1 1 10, Txn.deposit 1 1 3]

/-- C8 counterexample: a second deposit with the same transaction id
overwrites the logged entry, so the log is not immutable under later
transactions. -/
theorem c8_counterexample :
    (run initAccounts c8seq).map (fun s => (s 1).txnlog 1) =
      some (some (Txn.deposit 1 1 3)) ∧
      Txn.deposit 1 1 3 ≠ Txn.deposit 1 1 10 := by
  have h3 : round_dp (3 : ℚ) 4 = 3 :=
    round_dp_eq_self (3 : ℚ) 4 ⟨30000, by norm_num⟩
  have h10 : round_dp (10 : ℚ) 4 = 10 :=
    round_dp_eq_self (10 : ℚ) 4 ⟨100000, by norm_num⟩
  constructor
  · simp [c8seq, run, execute, is_locked, initAccounts, Txn.deposit,
      Txn.new, Txn.amountD, CURRENCY_PRECISION, h3, h10, deposit,
      log_transaction, setAccount, Function.update_apply]
  · simp [Txn.deposit, Txn.new, CURRENCY_PRECISION, h3, h10]

/-- C4 (amended): a withdrawal exceeding the available balance of an
unlocked account leaves every balance, the dispute set and the locked flag
unchanged and touches no other account, but the withdrawal IS logged under
its transaction id (Rust `execute` logs a withdrawal unconditionally). -/
theorem c4_failed_withdrawal (s : Accounts) (w : Txn)
    (ht : w.txntype = TxnType.Withdrawal)
    (hl : (s w.client).locked = false)
    (hlt : (s w.client).balance.available < w.amountD) :
    ∃ s', execute s w = some s' ∧
      (∀ c, (s' c).balance = (s c).balance) ∧
      (s' w.client).disputes = (s w.client).disputes ∧
      (s' w.client).locked = (s w.client).locked ∧
      (s' w.client).txnlog w.tx = some w ∧
      (∀ x, x ≠ w.tx → (s' w.client).txnlog x = (s w.client).txnlog x) ∧
      (∀ c, c ≠ w.client → s' c = s c) := by
  refine ⟨log_transaction (withdraw s w.client w.amountD) w,
    execute_unlocked_withdrawal hl ht, ?_, ?_, ?_, ?_, ?_, ?_⟩ <;>
    rw [withdraw_of_lt hlt]
  · intro c
    by_cases hc : c = w.client
    · subst hc; simp [log_transaction, setAccount_apply]
    · simp [log_transaction, setAccount_apply, hc]
  · simp [log_transaction, setAccount_apply]
  · simp [log_transaction, setAccount_apply]
  · simp [log_transaction, setAccount_apply]
  · intro x hx
    simp [log_transaction, setAccount_apply, Function.update_apply, hx]
  · intro c hc
    exact log_transaction_apply_ne hc

/-- Witness for the amended C4: withdrawing 5 from a fresh empty account. -/
theorem c4_failed_withdrawal_witness :
    ∃ s', execute initAccounts (Txn.withdrawal 1 1 5) = some s' ∧
      (∀ c, (s' c).balance = (initAccounts c).balance) ∧
      (s' 1).disputes = (initAccounts 1).disputes ∧
      (s' 1).locked = (initAccounts 1).locked ∧
      (s' 1).txnlog 1 = some (Txn.withdrawal 1 1 5) ∧
      (∀ x, x ≠ 1 → (s' 1).txnlog x = (initAccounts 1).txnlog x) ∧
      (∀ c, c ≠ 1 → s' c = initAccounts c) :=
  c4_failed_withdrawal initAccounts (Txn.withdrawal 1 1 5) rfl rfl
    (by
      have h5 : round_dp (5 : ℚ) 4 = 5 :=
        round_dp_eq_self (5 : ℚ) 4 ⟨50000, by norm_num⟩
      simp [initAccounts, Txn.withdrawal, Txn.new, Txn.amountD,
        CURRENCY_PRECISION, h5])

/-! ### Log persistence (C8) -/

/-- One engine step can never delete a log entry; it can only overwrite it,
and only when the step is a Deposit/Withdrawal for the same client that
reuses the same transaction id. -/
lemma log_entry_execute {s s' : Accounts} {t : Txn}
    (h : execute s t = some s') {c : ClientId} {x : TxnId} {txn : Txn}
    (hx : (s c).txnlog x = some txn) :
    (s' c).txnlog x = some txn ∨
      (t.client = c ∧ t.tx = x ∧
        (t.txntype = TxnType.Deposit ∨ t.txntype = TxnType.Withdrawal) ∧
        (s' c).txnlog x = some t) := by
  by_cases hc : c = t.client
  case neg => left; rw [execute_apply_ne h hc]; exact hx
  subst hc
  by_cases hl : (s t.client).locked = true
  case pos =>
    rw [execute_of_locked hl] at h
    cases h
    left
    exact hx
  case neg =>
    rw [Bool.not_eq_true] at hl
    cases ht : t.txntype with
    | Deposit =>
      rw [execute_unlocked_deposit hl ht] at h
      cases h
      by_cases hxx : x = t.tx
      · subst hxx
        right
        refine ⟨rfl, rfl, Or.inl rfl, ?_⟩
        simp [log_transaction, deposit, setAccount_apply]
      · left
        simp [log_transaction, deposit, setAccount_apply,
          Function.update_apply, hxx]
        exact hx
    | Withdrawal =>
      rw [execute_unlocked_withdrawal hl ht] at h
      cases h
      by_cases hxx : x = t.tx
      · subst hxx
        right
        refine ⟨rfl, rfl, Or.inr rfl, ?_⟩
        by_cases hw : (s t.client).balance.available < t.amountD
        · rw [withdraw_of_lt hw]
          simp [log_transaction, setAccount_apply]
        · rw [withdraw_of_ge hw]
          simp [log_transaction, setAccount_apply]
      · left
        by_cases hw : (s t.client).balance.available < t.amountD
        · rw [withdraw_of_lt hw]
          simp [log_transaction, setAccount_apply, Function.update_apply, hxx]
          exact hx
        · rw [withdraw_of_ge hw]
          simp [log_transaction, setAccount_apply, Function.update_apply, hxx]
          exact hx
    | Dispute =>
      rw [execute_unlocked_dispute hl ht] at h
      cases h
      left
      by_cases hd : t.tx ∈ (s t.client).disputes
      · rw [dispute_of_mem hd]; exact hx
      · cases hlog : (s t.client).txnlog t.tx with
        | none => rw [dispute_of_log_none hlog]; exact hx
        | some txn0 =>
          rw [dispute_of_new hlog hd]
          simp [setAccount_apply]
          exact hx
    | Resolve =>
      rw [execute_unlocked_resolve hl ht] at h
      left
      by_cases hd : t.tx ∈ (s t.client).disputes
      · cases hlog : (s t.client).txnlog t.tx with
        | none =>
          rw [resolve_of_mem_none hd hlog] at h
          exact absurd h (by simp)
        | some txn0 =>
          rw [resolve_of_mem_some hd hlog] at h
          cases h
          simp [setAccount_apply]
          exact hx
      · rw [resolve_of_not_mem hd] at h
        cases h
        exact hx
    | Chargeback =>
      rw [execute_unlocked_chargeback hl ht] at h
      left
      by_cases hd : t.tx ∈ (s t.client).disputes
      · cases hlog : (s t.client).txnlog t.tx with
        | none =>
          rw [chargeback_of_mem_none hd hlog] at h
          exact absurd h (by simp)
        | some txn0 =>
          rw [chargeback_of_mem_some hd hlog] at h
          cases h
          simp [lock, setAccount_apply]
          exact hx
      · rw [chargeback_of_not_mem hd] at h
        cases h
        exact hx

/-- Run-level log persistence. -/
lemma log_entry_run {l : List Txn} :
    ∀ {s s' : Accounts}, run s l = some s' →
      ∀ {c : ClientId} {x : TxnId} {txn : Txn}, (s c).txnlog x = some txn →
        (∃ txn', (s' c).txnlog x = some txn') ∧
          ((∀ t ∈ l, ¬(t.client = c ∧ t.tx = x ∧
              (t.txntype = TxnType.Deposit ∨
                t.txntype = TxnType.Withdrawal))) →
            (s' c).txnlog x = some txn) := by
  induction l with
  | nil =>
    intro s s' h c x txn hx
    cases h
    exact ⟨⟨txn, hx⟩, fun _ => hx⟩
  | cons t ts ih =>
    intro s s' h c x txn hx
    unfold run at h
    cases he : execute s t with
    | none => rw [he] at h; exact absurd h (by simp)
    | some s1 =>
      rw [he] at h
      rcases log_entry_execute he hx with h1 | ⟨hc, htx, hty, h1⟩
      · obtain ⟨hex, hunch⟩ := ih h h1
        exact ⟨hex, fun hall =>
          hunch (fun t' ht' => hall t' (List.mem_cons_of_mem _ ht'))⟩
      · obtain ⟨hex, _⟩ := ih h h1
        exact ⟨hex, fun hall =>
          absurd ⟨hc, htx, hty⟩ (hall t (List.mem_cons_self t ts))⟩

/-- C8 (amended): the log is never pruned — once a transaction is logged
under an id, some entry exists under that id for the rest of the run — and
the recorded transaction (in particular its amount) is unchanged unless a
later Deposit/Withdrawal of the same client reuses the same id, which
overwrites the entry. -/
theorem c8_log_append_only (s : Accounts) (l : List Txn) (s' : Accounts)
    (c : ClientId) (x : TxnId) (txn : Txn) (hrun : run s l = some s')
    (hlog : (s c).txnlog x = some txn) :
    (∃ txn', (s' c).txnlog x = some txn') ∧
      ((∀ t ∈ l, ¬(t.client = c ∧ t.tx = x ∧
          (t.txntype = TxnType.Deposit ∨ t.txntype = TxnType.Withdrawal))) →
        (s' c).txnlog x = some txn) :=
  log_entry_run hrun hlog

/-- An account table whose client-1 account has one logged deposit. -/
def oneLogAccounts : Accounts :=
  setAccount initAccounts 1
    { txnlog := Function.update (fun _ => none) 1 (some (Txn.deposit 1 1 10)) }

/-- Witness for the amended C8. -/
theorem c8_log_append_only_witness :
    (∃ txn', (oneLogAccounts 1).txnlog 1 = some txn') ∧
      ((∀ t ∈ ([] : List Txn), ¬(t.client = 1 ∧ t.tx = 1 ∧
          (t.txntype = TxnType.Deposit ∨ t.txntype = TxnType.Withdrawal))) →
        (oneLogAccounts 1).txnlog 1 = some (Txn.deposit 1 1 10)) :=
  c8_log_append_only oneLogAccounts [] oneLogAccounts 1 1 (Txn.deposit 1 1 10)
    rfl (by simp [oneLogAccounts, setAccount_apply])

/-- C5: on a reachable table with an unlocked account, a chargeback of an
undisputed id is a no-op, while a chargeback of a disputed id removes the id
from the dispute set, subtracts the logged amount from held and from total,
leaves available unchanged, locks the account, and the account stays locked
for the rest of the run. -/
theorem c5_chargeback_semantics (s : Accounts) (c : ClientId) (tx : TxnId)
    (hr : Reachable s) (hl : (s c).locked = false) :
    (tx ∉ (s c).disputes →
      execute s (Txn.chargeback c tx) = some s) ∧
    (tx ∈ (s c).disputes → ∃ txn s',
      (s c).txnlog tx = some txn ∧
      execute s (Txn.chargeback c tx) = some s' ∧
      (s' c).disputes = (s c).disputes.erase tx ∧
      (s' c).balance.held = (s c).balance.held - txn.amountD ∧
      (s' c).balance.total = (s c).balance.total - txn.amountD ∧
      (s' c).balance.available = (s c).balance.available ∧
      (s' c).locked = true ∧
      (∀ (l : List Txn) (s'' : Accounts), run s' l = some s'' →
        (s'' c).locked = true)) := by
  constructor
  · intro hd
    rw [execute_unlocked_chargeback hl rfl]
    exact chargeback_of_not_mem hd
  · intro hd
    obtain ⟨txn, hlog⟩ :=
      Option.isSome_iff_exists.mp (disputesLogged_reachable hr c tx hd)
    have hexec : execute s (Txn.chargeback c tx) = chargeback s c tx :=
      execute_unlocked_chargeback hl rfl
    rw [chargeback_of_mem_some hd hlog] at hexec
    refine ⟨txn, _, hlog, hexec, ?_, ?_, ?_, ?_, ?_, ?_⟩
    · simp [lock, setAccount_apply]
    · simp [lock, setAccount_apply]
    · simp [lock, setAccount_apply]
    · simp [lock, setAccount_apply]
    · simp [lock, setAccount_apply]
    · intro l s'' hrun
      have hlk := @locked_run l _ s'' c (by simp [lock, setAccount_apply]) hrun
      rw [hlk]
      simp [lock, setAccount_apply]

/-- Witness for C5 at the initial table (the undisputed branch is exercised;
the disputed branch holds vacuously since the dispute set is empty). -/
theorem c5_chargeback_semantics_witness :
    (1 ∉ (initAccounts 1).disputes →
      execute initAccounts (Txn.chargeback 1 1) = some initAccounts) ∧
    (1 ∈ (initAccounts 1).disputes → ∃ txn s',
      (initAccounts 1).txnlog 1 = some txn ∧
      execute initAccounts (Txn.chargeback 1 1) = some s' ∧
      (s' 1).disputes = (initAccounts 1).disputes.erase 1 ∧
      (s' 1).balance.held = (initAccounts 1).balance.held - txn.amountD ∧
      (s' 1).balance.total = (initAccounts 1).balance.total - txn.amountD ∧
      (s' 1).balance.available = (initAccounts 1).balance.available ∧
      (s' 1).locked = true ∧
      (∀ (l : List Txn) (s'' : Accounts), run s' l = some s'' →
        (s'' 1).locked = true)) :=
  c5_chargeback_semantics initAccounts 1 1 Reachable.init rfl

/-! ### The held-balance invariant (amended C3) -/

/-- The amount recorded in the log under an id (0 if the id is absent). -/
def amtAt (log : TxnId → Option Txn) (t : TxnId) : Amount :=
  match log t with
  | some txn => txn.amountD
  | none => 0

/-- Per-account invariant implying `held ≥ 0`: disputed ids are logged, all
logged amounts are nonnegative, and held is the sum of the amounts of the
currently disputed transactions. -/
def HeldOk (a : Account) : Prop :=
  (∀ t ∈ a.disputes, (a.txnlog t).isSome) ∧
  (∀ (t : TxnId) (txn : Txn), a.txnlog t = some txn → 0 ≤ txn.amountD) ∧
  a.balance.held = a.disputes.sum (amtAt a.txnlog)

/-- Side conditions under which the held invariant is preserved: the
transaction's amount is nonnegative, and a Deposit/Withdrawal does not reuse
a transaction id that is already in its client's log. -/
def okStep (s : Accounts) (t : Txn) : Prop :=
  0 ≤ t.amountD ∧
  ((t.txntype = TxnType.Deposit ∨ t.txntype = TxnType.Withdrawal) →
    (s t.client).txnlog t.tx = none)

/-- Account tables reachable using only transactions that satisfy `okStep`
(nonnegative amounts, fresh ids for balance-carrying transactions). -/
inductive ReachableOk : Accounts → Prop where
  | init : ReachableOk initAccounts
  | step {s s' : Accounts} {t : Txn} :
      ReachableOk s → okStep s t → execute s t = some s' → ReachableOk s'

lemma heldOk_nonneg {a : Account} (h : HeldOk a) : 0 ≤ a.balance.held := by
  obtain ⟨h1, h2, h3⟩ := h
  rw [h3]
  apply Finset.sum_nonneg
  intro x hx
  obtain ⟨txn, hlog⟩ := Option.isSome_iff_exists.mp (h1 x hx)
  unfold amtAt
  rw [hlog]
  exact h2 x txn hlog

/-- After logging a fresh transaction, the sum of disputed amounts is
unchanged, because no disputed id equals the fresh id. -/
lemma sum_amtAt_update {a : Account} {x : TxnId} {t : Txn}
    (hmem : ∀ u ∈ a.disputes, (a.txnlog u).isSome)
    (hfresh : a.txnlog x = none) :
    a.disputes.sum (amtAt (Function.update a.txnlog x (some t))) =
      a.disputes.sum (amtAt a.txnlog) := by
  apply Finset.sum_congr rfl
  intro u hu
  have hne : u ≠ x := by
    intro he
    have hsome := hmem u hu
    rw [he, hfresh] at hsome
    simp at hsome
  unfold amtAt
  rw [Function.update_apply]
  simp [hne]

lemma heldOk_execute {s s' : Accounts} {t : Txn} (h : execute s t = some s')
    (hok : okStep s t) (hs : ∀ c, HeldOk (s c)) : ∀ c, HeldOk (s' c) := by
  intro c
  by_cases hc : c = t.client
  case neg => rw [execute_apply_ne h hc]; exact hs c
  subst hc
  obtain ⟨h1, h2, h3⟩ := hs t.client
  by_cases hl : (s t.client).locked = true
  case pos =>
    rw [execute_of_locked hl] at h
    cases h
    exact hs t.client
  case neg =>
    rw [Bool.not_eq_true] at hl
    cases ht : t.txntype with
    | Deposit =>
      rw [execute_unlocked_deposit hl ht] at h
      cases h
      have hfresh : (s t.client).txnlog t.tx = none := hok.2 (Or.inl ht)
      refine ⟨?_, ?_, ?_⟩
      · intro u hu
        simp [log_transaction, deposit, setAccount_apply] at hu ⊢
        rw [Function.update_apply]
        split
        · simp
        · exact h1 u hu
      · intro u txn hu
        simp [log_transaction, deposit, setAccount_apply] at hu
        rw [Function.update_apply] at hu
        split at hu
        · cases hu
          exact hok.1
        · exact h2 u txn hu
      · simp [log_transaction, deposit, setAccount_apply]
        rw [sum_amtAt_update h1 hfresh]
        exact h3
    | Withdrawal =>
      rw [execute_unlocked_withdrawal hl ht] at h
      cases h
      have hfresh : (s t.client).txnlog t.tx = none := hok.2 (Or.inr ht)
      by_cases hw : (s t.client).balance.available < t.amountD
      · rw [withdraw_of_lt hw]
        refine ⟨?_, ?_, ?_⟩
        · intro u hu
          simp [log_transaction, setAccount_apply] at hu ⊢
          rw [Function.update_apply]
          split
          · simp
          · exact h1 u hu
        · intro u txn hu
          simp [log_transaction, setAccount_apply] at hu
          rw [Function.update_apply] at hu
          split at hu
          · cases hu
            exact hok.1
          · exact h2 u txn hu
        · simp [log_transaction, setAccount_apply]
          rw [sum_amtAt_update h1 hfresh]
          exact h3
      · rw [withdraw_of_ge hw]
        refine ⟨?_, ?_, ?_⟩
        · intro u hu
          simp [log_transaction, setAccount_apply] at hu ⊢
          rw [Function.update_apply]
          split
          · simp
          · exact h1 u hu
        · intro u txn hu
          simp [log_transaction, setAccount_apply] at hu
          rw [Function.update_apply] at hu
          split at hu
          · cases hu
            exact hok.1
          · exact h2 u txn hu
        · simp [log_transaction, setAccount_apply]
          rw [sum_amtAt_update h1 hfresh]
          exact h3
    | Dispute =>
      rw [execute_unlocked_dispute hl ht] at h
      cases h
      by_cases hd : t.tx ∈ (s t.client).disputes
      · rw [dispute_of_mem hd]
        exact hs t.client
      · cases hlog : (s t.client).txnlog t.tx with
        | none =>
          rw [dispute_of_log_none hlog]
          exact hs t.client
        | some txn =>
          rw [dispute_of_new hlog hd]
          have hamt : amtAt (s t.client).txnlog t.tx = txn.amountD := by
            unfold amtAt
            rw [hlog]
          refine ⟨?_, ?_, ?_⟩
          · intro u hu
            simp [setAccount_apply] at hu ⊢
            rcases hu with rfl | hu
            · simp [hlog]
            · exact h1 u hu
          · intro u txn0 hu
            simp [setAccount_apply] at hu
            exact h2 u txn0 hu
          · simp [setAccount_apply]
            rw [Finset.sum_insert hd, hamt, h3]
            ring
    | Resolve =>
      rw [execute_unlocked_resolve hl ht] at h
      by_cases hd : t.tx ∈ (s t.client).disputes
      · cases hlog : (s t.client).txnlog t.tx with
        | none =>
          rw [resolve_of_mem_none hd hlog] at h
          exact absurd h (by simp)
        | some txn =>
          rw [resolve_of_mem_some hd hlog] at h
          cases h
          have hsum := Finset.sum_erase_add (s t.client).disputes
            (amtAt (s t.client).txnlog) hd
          have hamt : amtAt (s t.client).txnlog t.tx = txn.amountD := by
            unfold amtAt
            rw [hlog]
          refine ⟨?_, ?_, ?_⟩
          · intro u hu
            simp [setAccount_apply] at hu ⊢
            exact h1 u hu.2
          · intro u txn0 hu
            simp [setAccount_apply] at hu
            exact h2 u txn0 hu
          · simp [setAccount_apply]
            rw [hamt] at hsum
            linarith
      · rw [resolve_of_not_mem hd] at h
        cases h
        exact hs t.client
    | Chargeback =>
      rw [execute_unlocked_chargeback hl ht] at h
      by_cases hd : t.tx ∈ (s t.client).disputes
      · cases hlog : (s t.client).txnlog t.tx with
        | none =>
          rw [chargeback_of_mem_none hd hlog] at h
          exact absurd h (by simp)
        | some txn =>
          rw [chargeback_of_mem_some hd hlog] at h
          cases h
          have hsum := Finset.sum_erase_add (s t.client).disputes
            (amtAt (s t.client).txnlog) hd
          have hamt : amtAt (s t.client).txnlog t.tx = txn.amountD := by
            unfold amtAt
            rw [hlog]
          refine ⟨?_, ?_, ?_⟩
          · intro u hu
            simp [lock, setAccount_apply] at hu ⊢
            exact h1 u hu.2
          · intro u txn0 hu
            simp [lock, setAccount_apply] at hu
            exact h2 u txn0 hu
          · simp [lock, setAccount_apply]
            rw [hamt] at hsum
            linarith
      · rw [chargeback_of_not_mem hd] at h
        cases h
        exact hs t.client

/-- C3 (amended): if every transaction carries a nonnegative amount and no
Deposit/Withdrawal reuses a transaction id already logged for its client,
then after each transaction every account's held balance is ≥ 0. -/
theorem c3_held_nonneg {s : Accounts} (h : ReachableOk s) :
    ∀ c : ClientId, 0 ≤ (s c).balance.held := by
  have hinv : ∀ c, HeldOk (s c) := by
    induction h with
    | init =>
      intro c
      refine ⟨?_, ?_, ?_⟩
      · intro u hu
        exact absurd hu (by simp [initAccounts])
      · intro u txn hu
        exact absurd hu (by simp [initAccounts])
      · simp [initAccounts]
    | step hr hok he ih => exact heldOk_execute he hok ih
  intro c
  exact heldOk_nonneg (hinv c)

/-- Witness for the amended C3 at the initial table. -/
theorem c3_held_nonneg_witness : 0 ≤ (initAccounts 0).balance.held :=
  c3_held_nonneg ReachableOk.init 0

/-! ### The transaction normalizer (C7)

`deserialize_record` (main.rs:210-216) trims every field of the record and
deserializes it positionally into `Txn` via serde, then rounds the amount
(`truncate_amount`).  The observable contract is pinned by the code in
`src/`: `#[serde(rename_all = "lowercase")]` (main.rs:23) makes tag
matching exact-lowercase; `client: u16` and `tx: u32` make out-of-range or
non-numeric ids fail the record (tests `test_deserialize_invalid_client_id`
and `test_deserialize_invalid_txn_id`); and `amount: Option<Decimal>`
(main.rs:38) is independent of the type tag, so an empty amount field
deserializes to `None` for every transaction type (test
`test_deserialize_missing_amount`) — it is NOT rejected for
Deposit/Withdrawal.  The string-level helpers are implemented structurally
over the character list so that concrete records evaluate inside proofs. -/

/-- One external input record: four positional text fields
`type, client, tx, amount`. -/
structure RawRecord where
  typ : String
  client : String
  tx : String
  amount : String

/-- Whitespace-trimming of a field (`record.trim()` in the source). -/
def strTrim (s : String) : String :=
  ⟨((s.data.dropWhile Char.isWhitespace).reverse.dropWhile
      Char.isWhitespace).reverse⟩

/-- Decimal digit-string parsing for the id fields (`u16`/`u32` via serde:
nonempty, digits only, no sign). -/
def digitsToNat? (l : List Char) : Option ℕ :=
  if l.isEmpty then none
  else
    l.foldl
      (fun acc c =>
        match acc with
        | none => none
        | some n => if c.isDigit then some (10 * n + (c.toNat - 48)) else none)
      (some 0)

/-- Type-tag matching of the normalizer: `#[serde(rename_all = "lowercase")]`
pins exact-lowercase matching of the five variant names; anything else
fails. -/
def parseTag (s : String) : Option TxnType :=
  match strTrim s with
  | "deposit" => some TxnType.Deposit
  | "withdrawal" => some TxnType.Withdrawal
  | "dispute" => some TxnType.Dispute
  | "resolve" => some TxnType.Resolve
  | "chargeback" => some TxnType.Chargeback
  | _ => none

/-- Parsing of a (possibly signed) fixed-point decimal amount from text
(`rust_decimal::Decimal`'s `FromStr` on the amount field); anything else
fails. -/
def parseDecimal (s : String) : Option Amount :=
  let parse : List Char → Option ℚ := fun l =>
    let w := l.takeWhile (fun c => c ≠ '.')
    let rest := l.dropWhile (fun c => c ≠ '.')
    match rest with
    | [] => (digitsToNat? w).map (fun n => (n : ℚ))
    | _ :: f =>
      match digitsToNat? w, digitsToNat? f with
      | some n, some m => some ((n : ℚ) + (m : ℚ) / 10 ^ f.length)
      | _, _ => none
  match s.data with
  | '-' :: rest => (parse rest).map (fun q => -q)
  | l => parse l

/-- The normalizer: `deserialize_record` (main.rs:210-216).  Every field is
trimmed; an unknown tag or an unparsable/out-of-range id fails the record;
an empty amount field deserializes to `amount = None` for EVERY transaction
type (`amount: Option<Decimal>` is independent of the tag); a present
amount must parse as a decimal and is rounded to 4 fractional digits
(`truncate_amount`, which `Txn.new` reproduces). -/
def normalizeRecord (r : RawRecord) : Option Txn :=
  match parseTag r.typ with
  | none => none
  | some tt =>
    match digitsToNat? (strTrim r.client).data with
    | none => none
    | some c =>
      if 65535 < c then none
      else
        match digitsToNat? (strTrim r.tx).data with
        | none => none
        | some x =>
          if 4294967295 < x then none
          else
            if (strTrim r.amount).isEmpty then
              some (Txn.new tt c x none)
            else
              match parseDecimal (strTrim r.amount) with
              | none => none
              | some a => some (Txn.new tt c x (some a))

/-- C7 counterexample: the record `deposit, 1, 2, <empty>` does NOT fail —
the normalizer accepts it as a Deposit with `amount = None` (the engine
would later execute it as a zero-amount deposit), contradicting the claim
that an empty amount fails Deposit/Withdrawal records and is accepted only
for Dispute/Resolve/Chargeback. -/
theorem c7_counterexample :
    normalizeRecord (RawRecord.mk "deposit" "1" "2" "") =
      some (Txn.new TxnType.Deposit 1 2 none) ∧
    (Txn.new TxnType.Deposit 1 2 none).txntype = TxnType.Deposit := by
  constructor
  · decide
  · rfl

/-- C7 (amended): for every record whose tag, client id and transaction id
parse, an empty (trimmed) amount field is accepted for EVERY transaction
type — Deposit and Withdrawal included — and produces a transaction whose
amount is `None` (so `Txn::amount()` reads it as 0). -/
theorem c7_empty_amount_accepted (r : RawRecord) {tt : TxnType} {c x : ℕ}
    (he : strTrim r.amount = "") (htag : parseTag r.typ = some tt)
    (hc : digitsToNat? (strTrim r.client).data = some c) (hc16 : c ≤ 65535)
    (hx : digitsToNat? (strTrim r.tx).data = some x)
    (hx32 : x ≤ 4294967295) :
    normalizeRecord r = some (Txn.new tt c x none) := by
  have hempty : (strTrim r.amount).isEmpty = true := by rw [he]; rfl
  unfold normalizeRecord
  rw [htag, hc]
  simp only
  rw [if_neg (not_lt.mpr hc16), hx]
  simp only
  rw [if_neg (not_lt.mpr hx32), if_pos hempty]

/-- Witness for the amended C7 at the record `withdrawal, 1, 2, <empty>`. -/
theorem c7_empty_amount_accepted_witness :
    normalizeRecord (RawRecord.mk "withdrawal" "1" "2" "") =
      some (Txn.new TxnType.Withdrawal 1 2 none) :=
  c7_empty_amount_accepted (RawRecord.mk "withdrawal" "1" "2" "")
    (by decide) (by decide) (by decide) (by decide) (by decide) (by decide)

end Ledger
